import Mathlib

/-!
Shallow embedding of `gen_req.py` (luk3rr/GEN_PYTHON_REQ): a tool that scans a
Python project for `import`/`from` statements, cross-references the discovered
names against the output of `pip list`, and writes a pinned `requirements.txt`.

Strings are modelled through their character lists (`String.data`); machine
text is ASCII in all inputs of interest.
-/

/-- Model of Python's `\s` character class (ASCII whitespace, as appears in
source files: space, tab, newline, carriage return, vertical tab, form feed). -/
def pySpace (c : Char) : Bool :=
  c == ' ' || c == '\t' || c == '\n' || c == '\r' || c == '\x0b' || c == '\x0c'

/-- Strip a literal keyword from the front of a character list, returning the
remainder on success (the literal-matching part of the regex alternation
`(?:import|from)`). -/
def chompLit : List Char → List Char → Option (List Char)
  | [], cs => some cs
  | _ :: _, [] => none
  | k :: ks, c :: cs => if c == k then chompLit ks cs else none

def impKw : List Char := ['i', 'm', 'p', 'o', 'r', 't']

def fromKw : List Char := ['f', 'r', 'o', 'm']

/-- After the keyword of `^\s*(?:import|from)\s+(\S+)` has been consumed:
require at least one whitespace character (`\s+`), skip the whole run (greedy,
and the following `\S` cannot match whitespace, so no backtracking point
survives), then capture the maximal nonempty run of non-whitespace characters
(`(\S+)`).  Returns the capture and the rest of the input after it. -/
def afterKw (cs2 : List Char) : Option (List Char × List Char) :=
  match cs2 with
  | [] => none
  | c :: _ =>
    if pySpace c then
      match (cs2.dropWhile pySpace).takeWhile (fun x => !pySpace x) with
      | [] => none
      | d :: ds =>
        some (d :: ds, (cs2.dropWhile pySpace).drop (d :: ds).length)
    else none

/-- One attempt of the pattern `^\s*(?:import|from)\s+(\S+)` at a position
where `^` holds.  `\s*` is greedy and the keyword begins with a
non-whitespace character, so the only viable split consumes the entire
whitespace run (which, `\s` matching `\n` in MULTILINE mode too, may span
lines).  The alternation tries `import` then `from`; since the two keywords
begin with different characters, at most one literal can match, so no
backtracking across the alternation is needed. -/
def matchImport (cs : List Char) : Option (List Char × List Char) :=
  match chompLit impKw (cs.dropWhile pySpace) with
  | some cs2 => afterKw cs2
  | none =>
    match chompLit fromKw (cs.dropWhile pySpace) with
    | some cs2 => afterKw cs2
    | none => none

/-- Fuel-indexed scan implementing `re.findall` of the pattern with
`re.MULTILINE`: try a match at every position where `^` holds (start of input
or just after a newline), and resume after the end of each match (whose last
character is a non-whitespace capture character, hence never a line start).
Each step consumes at least one input character, and a successful match
consumes strictly more than one, so fuel equal to the input length suffices. -/
def reScan : Nat → List Char → Bool → List (List Char)
  | 0, _, _ => []
  | _ + 1, [], _ => []
  | fuel + 1, c :: cs, lineStart =>
    if lineStart then
      match matchImport (c :: cs) with
      | some (cap, rest) => cap :: reScan fuel rest false
      | none => reScan fuel cs (c == '\n')
    else reScan fuel cs (c == '\n')

/-- `re.findall(r"^\s*(?:import|from)\s+(\S+)", content, re.MULTILINE)`:
position 0 of the input is a line start. -/
def reFindall (cs : List Char) : List (List Char) :=
  reScan cs.length cs true

/-- The alias table `PACKAGE_MAPPING` of the source, mapping import-time names
to pip distribution names. -/
def PACKAGE_MAPPING : List (String × String) := [("pil", "pillow")]

/-- Normalization applied to each captured token in `get_imported_packages`:
`imp.split(".")[0].lower()` (the segment before the first dot, lowercased; on
ASCII `str.lower` agrees with `Char.toLower`), then the alias lookup
`if imp in PACKAGE_MAPPING: imp = PACKAGE_MAPPING[imp]`. -/
def normImport (tok : List Char) : String :=
  match PACKAGE_MAPPING.lookup
      (String.mk ((tok.takeWhile (fun c => !(c == '.'))).map Char.toLower)) with
  | some mapped => mapped
  | none => String.mk ((tok.takeWhile (fun c => !(c == '.'))).map Char.toLower)

/-- All normalized import candidates produced from the text of one source
file (regex scan followed by per-token normalization). -/
def fileImports (content : String) : List String :=
  (reFindall content.data).map normImport

/-- A source file in the project tree: name and full text content. -/
structure PyFile where
  fname : String
  content : String

/-- A directory of the project tree: name, files, and subdirectories.  This is
the structure that `os.walk` traverses top-down. -/
inductive Dir : Type where
  | mk (dname : String) (files : List PyFile) (subdirs : List Dir)

def Dir.dname : Dir → String
  | .mk n _ _ => n

def Dir.files : Dir → List PyFile
  | .mk _ fs _ => fs

def Dir.subdirs : Dir → List Dir
  | .mk _ _ ds => ds

/-- Model of `file.endswith(".py")`: the last three characters are `.py`. -/
def isPyFile (s : String) : Bool :=
  s.data.reverse.take 3 == ['y', 'p', '.']

mutual
/-- Body of the `os.walk` loop in `get_imported_packages`: at each visited
directory, scan every file ending in `.py`; `dirs[:] = [d for d in dirs if d
not in ignore]` prunes ignored subdirectory names in place before the walk
descends, so pruned subtrees are never visited. -/
def scanDir (ignore : List String) : Dir → List String
  | .mk _ files subdirs =>
    files.foldr
      (fun f acc => (if isPyFile f.fname then fileImports f.content else []) ++ acc) []
      ++ scanSubdirs ignore subdirs

/-- Walk the (pruned) subdirectory list in order. -/
def scanSubdirs (ignore : List String) : List Dir → List String
  | [] => []
  | d :: ds =>
    (if d.dname ∈ ignore then [] else scanDir ignore d) ++ scanSubdirs ignore ds
end

/-- `get_imported_packages(path, ignore)`: the set of normalized imported
names found in the tree.  Python collects them in a `set`; the set is modelled
by the deduplicated list of discovered names (membership is what matters,
iteration order of a Python set is unspecified). -/
def get_imported_packages (tree : Dir) (ignore : List String) : List String :=
  (scanDir ignore tree).dedup

mutual
/-- Remove, recursively, every subdirectory whose name is in the ignore set
(the subtrees the walk never descends into). -/
def pruneDir (ignore : List String) : Dir → Dir
  | .mk n files subdirs => .mk n files (pruneSubdirs ignore subdirs)

def pruneSubdirs (ignore : List String) : List Dir → List Dir
  | [] => []
  | d :: ds =>
    if d.dname ∈ ignore then pruneSubdirs ignore ds
    else pruneDir ignore d :: pruneSubdirs ignore ds
end

/-- Model of Python `str.split("\n")`: split the text at every newline,
keeping empty chunks (always at least one chunk). -/
def splitNl (cs : List Char) : List (List Char) :=
  cs.foldr
    (fun c acc =>
      match acc with
      | [] => [[c]]
      | w :: ws => if c == '\n' then [] :: w :: ws else (c :: w) :: ws)
    [[]]

/-- Model of Python `str.split()` with no arguments: the maximal runs of
non-whitespace characters (empty chunks discarded). -/
def pyWords (cs : List Char) : List (List Char) :=
  (cs.splitOnP pySpace).filter (fun w => !w.isEmpty)

/-- The name normalization of the collector: `parts[0].lower().replace("-", "_")`
(lowercase first, then replace every hyphen by an underscore). -/
def normPkgName (s : String) : String :=
  String.mk (s.data.map (fun c =>
    let l := Char.toLower c
    if l == '-' then '_' else l))

/-- Python dict assignment `installed_packages[name] = version`: if the key is
present its value is updated in place (position in iteration order preserved),
otherwise the pair is appended.  The dict is modelled as an association list
in insertion order with unique keys. -/
def dictInsert (m : List (String × String)) (k v : String) : List (String × String) :=
  if m.any (fun e => e.1 == k) then
    m.map (fun e => if e.1 == k then (k, v) else e)
  else m ++ [(k, v)]

/-- The parsing loop shared by both branches of `get_installed_packages`:
for each line, skip it if empty (`if package:`), otherwise split it into
whitespace-separated tokens and read `parts[0]` (name, normalized) and
`parts[1]` (version, verbatim).  A non-empty line with fewer than two tokens
raises `IndexError`, modelled by `none`. -/
def parseLines : List (List Char) → List (String × String) → Option (List (String × String))
  | [], acc => some acc
  | w :: rest, acc =>
    if w.isEmpty then parseLines rest acc
    else
      match pyWords w with
      | p0 :: p1 :: _ =>
        parseLines rest (dictInsert acc (normPkgName (String.mk p0)) (String.mk p1))
      | _ => none

/-- Parse the stdout of `pip list`:
`result.stdout.decode("utf-8").split("\n")[2:]` (drop the two header lines)
followed by the per-line loop. -/
def parsePipList (out : String) : Option (List (String × String)) :=
  parseLines ((splitNl out.data).drop 2) []

/-- Result of a `subprocess.run` invocation. -/
structure ProcResult where
  returncode : Int
  stdout : String
  stderr : String

/-- The process environment `get_installed_packages` observes: whether a
virtual-environment folder argument was given, whether the resolved path is a
directory, the result of running `<venv>/bin/pip list`, and the stdout of the
global `pip list`. -/
structure PipEnv where
  venvFolder : Option String
  venvIsDir : Bool
  venvPip : ProcResult
  globalOut : String

/-- Python truthiness of the `venv_folder` argument (`if venv_folder:`):
absent (`None`) and the empty string are both falsy. -/
def venvProvided : Option String → Bool
  | none => false
  | some s => !(s == "")

/-- `get_installed_packages(project_path, venv_folder)`: returns the printed
messages and the parsed mapping (`none` models an uncaught `IndexError` while
parsing).  Each `print` is modelled as one emitted message;
`print("ERROR: ", stderr)` joins its two arguments with a space. -/
def get_installed_packages (env : PipEnv) :
    List String × Option (List (String × String)) :=
  if venvProvided env.venvFolder then
    if env.venvIsDir then
      if env.venvPip.returncode == 0 then
        (["Getting packages from the virtual environment."],
          parsePipList env.venvPip.stdout)
      else
        (["Failed to activate the virtual environment.",
          "ERROR: " ++ " " ++ env.venvPip.stderr,
          "Getting global packages instead."],
          parsePipList env.globalOut)
    else
      (["Virtual environment not found.", "Getting global packages instead."],
        parsePipList env.globalOut)
  else
    (["No virtual environment folder provided.", "Getting global packages instead."],
      parsePipList env.globalOut)

/-- `name.replace("_", "-")`: both sides of the writer comparison are brought
to their hyphenated form. -/
def normName (s : String) : String :=
  String.mk (s.data.map (fun c => if c == '_' then '-' else c))

/-- The writer comparison: `package == installed_package or
package.replace("_", "-") == installed_package.replace("_", "-")`. -/
def pkgMatch (package installed : String) : Bool :=
  package == installed || normName package == normName installed

/-- The inner loop of `generate_requirements_txt`: scan the installed mapping
in iteration order, and on the first entry whose key matches, produce the line
`f"{installed_package}=={installed_packages[installed_package]}"` and `break`
(the mapping has unique keys, so the entry scanned is the entry looked up). -/
def writeLoopInner (package : String) : List (String × String) → Option String
  | [] => none
  | ip :: rest =>
    if pkgMatch package ip.1 then some (ip.1 ++ "==" ++ ip.2)
    else writeLoopInner package rest

/-- The outer loop of `generate_requirements_txt`: one pass over the imported
names (in set-iteration order), appending the line found for each name, if
any, to the file. -/
def generate_requirements_txt (installed : List (String × String)) :
    List String → List String
  | [] => []
  | p :: ps =>
    match writeLoopInner p installed with
    | some line => line :: generate_requirements_txt installed ps
    | none => generate_requirements_txt installed ps

/-- Model of `open(output_file, "w")` followed by one `f.write(line + "\n")`
per produced line: the resulting file content is exactly the written lines,
whatever the previous content of the file was (mode `"w"` creates or
truncates unconditionally, which is why the first argument is ignored). -/
def writeManifest (oldContent : Option String) (lines : List String) : String :=
  String.join (lines.map (fun l => l ++ "\n"))

/-- The fixed ignore set of `main`. -/
def ignoreList : List String := ["__pycache__", ".git", ".vscode", ".venv"]

/-- `main()`: collect installed packages, scan the project tree, write the
manifest, print the final confirmation.  Returns the printed messages and the
final content of `requirements.txt`; `none` models an uncaught exception while
parsing the pip listing. -/
def mainRun (env : PipEnv) (tree : Dir) (old : Option String) :
    Option (List String × String) :=
  let r := get_installed_packages env
  match r.2 with
  | none => none
  | some installed =>
    some (r.1 ++ ["'requirements.txt' foi gerado com os pacotes utilizados."],
      writeManifest old
        (generate_requirements_txt installed (get_imported_packages tree ignoreList)))

/-! Helper lemmas about the writer. -/

theorem writeLoopInner_eq_find (p : String) (installed : List (String × String)) :
    writeLoopInner p installed =
      (installed.find? (fun ip => pkgMatch p ip.1)).map (fun ip => ip.1 ++ "==" ++ ip.2) := by
  induction installed with
  | nil => rfl
  | cons ip rest ih =>
    by_cases h : pkgMatch p ip.1
    · simp [writeLoopInner, h, List.find?_cons_of_pos]
    · simp only [Bool.not_eq_true] at h
      simp [writeLoopInner, h, List.find?_cons_of_neg, ih]

theorem writeLoopInner_none (p : String) (installed : List (String × String))
    (h : ∀ e ∈ installed, pkgMatch p e.1 = false) : writeLoopInner p installed = none := by
  induction installed with
  | nil => rfl
  | cons ip rest ih =>
    have hip := h ip (by simp)
    simp [writeLoopInner, hip]
    exact ih (fun e he => h e (by simp [he]))

theorem generate_eq_nil (installed : List (String × String)) (imported : List String)
    (h : ∀ p ∈ imported, writeLoopInner p installed = none) :
    generate_requirements_txt installed imported = [] := by
  induction imported with
  | nil => rfl
  | cons p ps ih =>
    have hp := h p (by simp)
    simp [generate_requirements_txt, hp]
    exact ih (fun q hq => h q (by simp [hq]))

/-- Claim C4: for installed mapping numpy↦1.26.0, pillow↦10.3.0 and imported
set containing numpy and pillow (in either iteration order; `pil` is
alias-mapped to `pillow` by the scanner), the writer produces exactly the two
lines `numpy==1.26.0` and `pillow==10.3.0`, in some order, and nothing else. -/
theorem c4_numpy_pillow_manifest :
    generate_requirements_txt [("numpy", "1.26.0"), ("pillow", "10.3.0")]
      ["numpy", "pillow"] = ["numpy==1.26.0", "pillow==10.3.0"] ∧
    generate_requirements_txt [("numpy", "1.26.0"), ("pillow", "10.3.0")]
      ["pillow", "numpy"] = ["pillow==10.3.0", "numpy==1.26.0"] ∧
    normImport "pil".data = "pillow" := by
  refine ⟨by decide, by decide, by decide⟩

/-- Claim C7: the writer's matching predicate succeeds exactly when the two
names agree after identifying underscores with hyphens; it is symmetric, and
`scikit-learn` matches `scikit_learn` in both roles. -/
theorem c7_match_normalization :
    (∀ a b : String, pkgMatch a b = true ↔ normName a = normName b) ∧
    (∀ a b : String, pkgMatch a b = pkgMatch b a) ∧
    pkgMatch "scikit-learn" "scikit_learn" = true ∧
    pkgMatch "scikit_learn" "scikit-learn" = true := by
  have key : ∀ a b : String, pkgMatch a b = true ↔ normName a = normName b := by
    intro a b
    simp only [pkgMatch, Bool.or_eq_true, beq_iff_eq]
    constructor
    · rintro (rfl | h)
      · rfl
      · exact h
    · exact Or.inr
  refine ⟨key, ?_, by decide, by decide⟩
  intro a b
  cases hab : pkgMatch a b <;> cases hba : pkgMatch b a <;> try rfl
  · exact absurd ((key a b).mpr ((key b a).mp hba).symm) (by simp [hab])
  · exact absurd ((key b a).mpr ((key a b).mp hab).symm) (by simp [hba])

/-- Claim C8: the writer produces, per imported name, exactly the line of the
first installed entry (in mapping iteration order) matching it, and nothing
for names with no matching entry — the whole output is a `filterMap` of the
first-match search over the imported names. -/
theorem c8_first_match_per_import :
    (∀ (installed : List (String × String)) (imported : List String),
      generate_requirements_txt installed imported =
        imported.filterMap (fun p =>
          (installed.find? (fun ip => pkgMatch p ip.1)).map
            (fun ip => ip.1 ++ "==" ++ ip.2))) ∧
    (∀ (p : String) (installed : List (String × String)),
      (∀ e ∈ installed, pkgMatch p e.1 = false) → writeLoopInner p installed = none) := by
  constructor
  · intro installed imported
    induction imported with
    | nil => rfl
    | cons p ps ih =>
      simp [generate_requirements_txt, List.filterMap_cons, writeLoopInner_eq_find, ih]
      cases installed.find? (fun ip => pkgMatch p ip.1) <;> simp
  · exact writeLoopInner_none

/-- Witness for C8 at a concrete unmatched import. -/
theorem c8_first_match_per_import_witness :
    writeLoopInner "flask" [("numpy", "1.26.0")] = none :=
  c8_first_match_per_import.2 "flask" [("numpy", "1.26.0")] (by decide)

/-- Counterexample to claim C3 as stated: the collector stores package names
lowercased (with hyphens replaced by underscores), so from a listing
containing `NumPy 1.26.0` the writer emits `numpy==1.26.0`, not a line with
the original-cased listing name `NumPy`. -/
theorem c3_claim_counterexample :
    parsePipList "Package Version\n------- -------\nNumPy 1.26.0" =
      some [("numpy", "1.26.0")] ∧
    generate_requirements_txt [("numpy", "1.26.0")] ["numpy"] = ["numpy==1.26.0"] ∧
    generate_requirements_txt [("numpy", "1.26.0")] ["numpy"] ≠ ["NumPy==1.26.0"] := by
  refine ⟨by decide, by decide, by decide⟩

/-- Claim C3 as amended: for an imported name that matches an installed
entry, the writer emits exactly one line `key==version` built from the
mapping's stored key — which, for mappings produced by the collector, is the
listing name lowercased with hyphens replaced by underscores, not the
original-cased listing name — and stops scanning further installed entries
(the emitted line does not depend on the entries after the first match). -/
theorem c3_writer_emits_stored_key (package : String) (pre post : List (String × String))
    (e : String × String)
    (hpre : ∀ x ∈ pre, pkgMatch package x.1 = false)
    (he : pkgMatch package e.1 = true) :
    writeLoopInner package (pre ++ e :: post) = some (e.1 ++ "==" ++ e.2) ∧
    parsePipList "Package Version\n------- -------\nNumPy 1.26.0" =
      some [("numpy", "1.26.0")] ∧
    generate_requirements_txt [("numpy", "1.26.0")] ["numpy"] = ["numpy==1.26.0"] := by
  refine ⟨?_, by decide, by decide⟩
  induction pre with
  | nil => simp [writeLoopInner, he]
  | cons x xs ih =>
    have hx := hpre x (by simp)
    simp [writeLoopInner, hx]
    exact ih (fun y hy => hpre y (by simp [hy]))

/-- Witness for C3 (amended) at concrete inputs: `pillow` skips the
non-matching `numpy` entry, stops at `pillow`, and later entries are never
consulted. -/
theorem c3_writer_emits_stored_key_witness :
    writeLoopInner "pillow"
      [("numpy", "1.26.0"), ("pillow", "10.3.0"), ("zzz", "0.1")] =
      some ("pillow" ++ "==" ++ "10.3.0") := by
  have h := c3_writer_emits_stored_key "pillow" [("numpy", "1.26.0")]
    [("zzz", "0.1")] ("pillow", "10.3.0") (by decide) (by decide)
  simpa using h.1

/-- Claim C5: when a virtual-environment folder is supplied (truthy) and is a
directory but its `pip list` exits non-zero, the collector prints the failure
notice and the error stream and returns the mapping parsed from the global
`pip list` output instead of failing. -/
theorem c5_venv_failure_fallback (env : PipEnv)
    (hf : venvProvided env.venvFolder = true)
    (hdir : env.venvIsDir = true)
    (hrc : env.venvPip.returncode ≠ 0) :
    get_installed_packages env =
      (["Failed to activate the virtual environment.",
        "ERROR: " ++ " " ++ env.venvPip.stderr,
        "Getting global packages instead."], parsePipList env.globalOut) := by
  have hrc2 : (env.venvPip.returncode == 0) = false := by
    simpa using hrc
  simp [get_installed_packages, hf, hdir, hrc2]

/-- Witness for C5 at a concrete environment whose global listing parses to a
one-package mapping. -/
theorem c5_venv_failure_fallback_witness :
    get_installed_packages
      ⟨some "venv", true, ⟨1, "", "boom"⟩,
        "Package Version\n------- -------\nnumpy 1.26.0"⟩ =
      (["Failed to activate the virtual environment.",
        "ERROR: " ++ " " ++ "boom",
        "Getting global packages instead."], some [("numpy", "1.26.0")]) := by
  have h := c5_venv_failure_fallback
    ⟨some "venv", true, ⟨1, "", "boom"⟩,
      "Package Version\n------- -------\nnumpy 1.26.0"⟩ (by decide) rfl (by decide)
  rw [h]
  decide

/-- Claim C9: when zero imported names match any installed package the run
still succeeds — the manifest file holds the empty content (the file is
created or truncated regardless of its previous content) and the final
confirmation message is printed last, with no error. -/
theorem c9_empty_match_success (env : PipEnv) (tree : Dir) (old : Option String)
    (installed : List (String × String))
    (hparse : (get_installed_packages env).2 = some installed)
    (hnm : ∀ p ∈ get_imported_packages tree ignoreList,
      ∀ e ∈ installed, pkgMatch p e.1 = false) :
    mainRun env tree old =
      some ((get_installed_packages env).1 ++
        ["'requirements.txt' foi gerado com os pacotes utilizados."], "") ∧
    ∀ old2 : Option String, mainRun env tree old2 = mainRun env tree old := by
  have hgen : generate_requirements_txt installed (get_imported_packages tree ignoreList) = [] :=
    generate_eq_nil _ _ (fun p hp => writeLoopInner_none p installed (hnm p hp))
  constructor
  · simp [mainRun, hparse, hgen, writeManifest, String.join]
  · intro old2
    simp [mainRun, writeManifest]

/-- Witness for C9: a project importing only `flask` against a global listing
with only `numpy` still produces a successful run with an empty manifest,
whatever was previously in the file. -/
theorem c9_empty_match_success_witness :
    mainRun ⟨none, false, ⟨0, "", ""⟩, "Package Version\n------- -------\nnumpy 1.26.0"⟩
      (.mk "proj" [⟨"main.py", "import flask"⟩] []) (some "stale content") =
      some (["No virtual environment folder provided.",
             "Getting global packages instead.",
             "'requirements.txt' foi gerado com os pacotes utilizados."], "") := by
  have h := (c9_empty_match_success
    ⟨none, false, ⟨0, "", ""⟩, "Package Version\n------- -------\nnumpy 1.26.0"⟩
    (.mk "proj" [⟨"main.py", "import flask"⟩] []) (some "stale content")
    [("numpy", "1.26.0")] (by decide) (by decide)).1
  rw [h]
  decide

/-! Helper lemmas about the collector's parsing loop. -/

theorem parseLines_total (lines : List (List Char)) :
    ∀ acc : List (String × String),
      (∀ w ∈ lines, w.isEmpty = false → 2 ≤ (pyWords w).length) →
      (parseLines lines acc).isSome = true := by
  induction lines with
  | nil => intro acc _; rfl
  | cons w rest ih =>
    intro acc h
    by_cases hw : w.isEmpty
    · simp [parseLines, hw]
      exact ih acc (fun v hv hne => h v (by simp [hv]) hne)
    · simp only [Bool.not_eq_true] at hw
      have hlen := h w (by simp) hw
      match hpw : pyWords w with
      | [] => rw [hpw] at hlen; simp at hlen
      | [p0] => rw [hpw] at hlen; simp at hlen
      | p0 :: p1 :: tail =>
        simp [parseLines, hw, hpw]
        exact ih _ (fun v hv hne => h v (by simp [hv]) hne)

/-- Claim C10: the collector's line parsing is total exactly under the
precondition that every non-empty line after the two headers has at least two
whitespace-separated tokens; a single-token line or a whitespace-only line
makes the index access fail (modelled by `none`) instead of returning a
mapping. -/
theorem c10_parser_totality :
    (∀ out : String,
      (∀ w ∈ (splitNl out.data).drop 2, w.isEmpty = false → 2 ≤ (pyWords w).length) →
      (parsePipList out).isSome = true) ∧
    parsePipList "Package Version\n------- -------\nonlyname" = none ∧
    parsePipList "Package Version\n------- -------\n   " = none := by
  refine ⟨?_, by decide, by decide⟩
  intro out h
  exact parseLines_total _ [] h

/-- Witness for C10 on a well-formed listing. -/
theorem c10_parser_totality_witness :
    (parsePipList "Package Version\n------- -------\nnumpy 1.26.0").isSome = true :=
  c10_parser_totality.1 "Package Version\n------- -------\nnumpy 1.26.0" (by decide)

/-- Key of the mapping entry a listing line produces: its first
whitespace-separated token, lowercased with hyphens replaced by underscores. -/
def lineKey (w : List Char) : String :=
  normPkgName (String.mk ((pyWords w).headD []))

/-- Version of the mapping entry a listing line produces: its second
whitespace-separated token, verbatim. -/
def lineVer (w : List Char) : String :=
  String.mk ((pyWords w).getD 1 [])

theorem dictInsert_fresh (m : List (String × String)) (k v : String)
    (h : ∀ e ∈ m, e.1 ≠ k) : dictInsert m k v = m ++ [(k, v)] := by
  unfold dictInsert
  rw [if_neg]
  simp only [List.any_eq_true, beq_iff_eq, not_exists, not_and]
  exact fun e he => h e he

theorem parseLines_fresh (lines : List (List Char)) :
    ∀ acc : List (String × String),
      (∀ w ∈ lines, w.isEmpty = false → 2 ≤ (pyWords w).length) →
      ((lines.filter (fun w => !w.isEmpty)).map lineKey).Nodup →
      (∀ w ∈ lines.filter (fun w => !w.isEmpty), ∀ e ∈ acc, e.1 ≠ lineKey w) →
      parseLines lines acc =
        some (acc ++ (lines.filter (fun w => !w.isEmpty)).map
          (fun w => (lineKey w, lineVer w))) := by
  induction lines with
  | nil => intro acc _ _ _; simp [parseLines]
  | cons w rest ih =>
    intro acc htok hnd hacc
    by_cases hw : w.isEmpty
    · simp only [List.filter_cons, hw] at hnd hacc ⊢
      simp [parseLines, hw]
      exact ih acc (fun v hv hne => htok v (by simp [hv]) hne) hnd hacc
    · simp only [Bool.not_eq_true] at hw
      have hlen := htok w (by simp) hw
      match hpw : pyWords w with
      | [] => rw [hpw] at hlen; simp at hlen
      | [p0] => rw [hpw] at hlen; simp at hlen
      | p0 :: p1 :: tail =>
        have hkey : lineKey w = normPkgName (String.mk p0) := by
          simp [lineKey, hpw]
        have hver : lineVer w = String.mk p1 := by
          simp [lineVer, hpw]
        have hfilter : (w :: rest).filter (fun v => !v.isEmpty) =
            w :: rest.filter (fun v => !v.isEmpty) := by
          simp [List.filter_cons, hw]
        rw [hfilter] at hnd hacc
        simp only [List.map_cons, List.nodup_cons] at hnd
        have hins : dictInsert acc (normPkgName (String.mk p0)) (String.mk p1) =
            acc ++ [(lineKey w, lineVer w)] := by
          rw [hkey, hver]
          refine dictInsert_fresh acc _ _ (fun e he => ?_)
          have := hacc w (by simp) e he
          rw [hkey] at this
          exact this
        have hfresh : ∀ v ∈ rest.filter (fun u => !u.isEmpty),
            ∀ e ∈ acc ++ [(lineKey w, lineVer w)], e.1 ≠ lineKey v := by
          intro v hv e he
          rcases List.mem_append.mp he with hacc2 | hsing
          · exact hacc v (by simp [hv]) e hacc2
          · simp only [List.mem_singleton] at hsing
            subst hsing
            intro hcontra
            simp only at hcontra
            exact hnd.1 (by rw [hcontra]; exact List.mem_map_of_mem lineKey hv)
        simp only [parseLines, hw, hpw, Bool.false_eq_true, if_false]
        rw [hins, ih (acc ++ [(lineKey w, lineVer w)])
          (fun v hv hne => htok v (by simp [hv]) hne) hnd.2 hfresh]
        rw [hfilter]
        simp

/-- Counterexample to claim C2 as stated: two listing lines whose names
normalize to the same key (`Foo` and `foo`) produce a single mapping entry
(the last occurrence wins), not one entry per non-empty line. -/
theorem c2_claim_counterexample :
    parsePipList "Package Version\n------- -------\nFoo 1.0\nfoo 2.0" =
      some [("foo", "2.0")] ∧
    (((splitNl ("Package Version\n------- -------\nFoo 1.0\nfoo 2.0").data).drop 2).filter
      (fun w => !w.isEmpty)).length = 2 := by
  refine ⟨by decide, by decide⟩

/-- Claim C2 as amended: for every listing with at least two header lines in
which every non-empty later line has at least two whitespace-separated tokens
and all the normalized first tokens are pairwise distinct, the collector
returns exactly one entry per non-empty post-header line, whose key is the
first token lowercased with hyphens replaced by underscores and whose version
is the second token verbatim (when two lines share a normalized key, the last
occurrence wins and the entry count is smaller). -/
theorem c2_collector_entries (out : String)
    (htok : ∀ w ∈ (splitNl out.data).drop 2, w.isEmpty = false → 2 ≤ (pyWords w).length)
    (hdist : ((((splitNl out.data).drop 2).filter (fun w => !w.isEmpty)).map lineKey).Nodup) :
    parsePipList out =
      some ((((splitNl out.data).drop 2).filter (fun w => !w.isEmpty)).map
        (fun w => (lineKey w, lineVer w))) ∧
    ∀ m, parsePipList out = some m →
      m.length = (((splitNl out.data).drop 2).filter (fun w => !w.isEmpty)).length := by
  have h := parseLines_fresh ((splitNl out.data).drop 2) [] htok hdist (by simp)
  rw [List.nil_append] at h
  have h2 : parsePipList out =
      some ((((splitNl out.data).drop 2).filter (fun w => !w.isEmpty)).map
        (fun w => (lineKey w, lineVer w))) := h
  refine ⟨h2, fun m hm => ?_⟩
  rw [h2] at hm
  cases hm
  simp

/-- Witness for C2 (amended) on a concrete two-package listing. -/
theorem c2_collector_entries_witness :
    parsePipList "Package Version\n------- -------\nNumPy 1.26.0\nscikit-learn 1.4.0" =
      some [("numpy", "1.26.0"), ("scikit_learn", "1.4.0")] := by
  have h := (c2_collector_entries
    "Package Version\n------- -------\nNumPy 1.26.0\nscikit-learn 1.4.0"
    (by decide) (by decide)).1
  rw [h]
  decide

/-! Helper lemmas about the walk and pruning. -/

theorem pruneDir_dname (ig : List String) (d : Dir) :
    (pruneDir ig d).dname = d.dname := by
  match d with
  | .mk n files subs => simp [pruneDir, Dir.dname]

theorem scan_prune_aux (ig : List String) :
    ∀ N : Nat,
      (∀ d : Dir, sizeOf d ≤ N → scanDir ig (pruneDir ig d) = scanDir ig d) ∧
      (∀ ds : List Dir, sizeOf ds ≤ N →
        scanSubdirs ig (pruneSubdirs ig ds) = scanSubdirs ig ds) := by
  intro N
  induction N using Nat.strong_induction_on with
  | _ N IH =>
    constructor
    · intro d hd
      match d with
      | Dir.mk n files subs =>
        have hlt : sizeOf subs < N := by
          simp only [Dir.mk.sizeOf_spec] at hd
          omega
        simp only [pruneDir, scanDir]
        rw [(IH (sizeOf subs) hlt).2 subs le_rfl]
    · intro ds hds
      match ds with
      | [] => rfl
      | d :: rest =>
        have hdlt : sizeOf d < N := by
          simp only [List.cons.sizeOf_spec] at hds
          omega
        have hrlt : sizeOf rest < N := by
          simp only [List.cons.sizeOf_spec] at hds
          omega
        by_cases hmem : d.dname ∈ ig
        · simp only [pruneSubdirs, hmem, if_true, scanSubdirs]
          rw [(IH (sizeOf rest) hrlt).2 rest le_rfl]
          simp
        · simp only [pruneSubdirs, hmem, if_false, scanSubdirs, pruneDir_dname]
          rw [(IH (sizeOf rest) hrlt).2 rest le_rfl,
            (IH (sizeOf d) hdlt).1 d le_rfl]

/-- Claim C6: the walk never descends into a subdirectory whose name is in
the ignore set — scanning a tree gives the same result as scanning the tree
with every ignored subtree removed, so files below ignored directories can
never contribute imports.  Concretely, with the tool's ignore set (which
contains `.git`), a `.git/fake.py` with `import os` contributes nothing and
only `requests` from `main.py` is discovered, even though the same file text
would contribute `os` if it were visited. -/
theorem c6_ignored_dirs_pruned :
    (∀ (ignore : List String) (d : Dir),
      scanDir ignore (pruneDir ignore d) = scanDir ignore d) ∧
    get_imported_packages
      (.mk "proj" [⟨"main.py", "import requests"⟩]
        [.mk ".git" [⟨"fake.py", "import os"⟩] []]) ignoreList = ["requests"] ∧
    fileImports "import os" = ["os"] := by
  refine ⟨fun ig d => (scan_prune_aux ig (sizeOf d)).1 d le_rfl, by decide, by decide⟩

/-! Helper lemmas about the regex scan, for claim C1. -/

theorem takeWhile_all {p : Char → Bool} :
    ∀ l : List Char, (∀ c ∈ l, p c = true) → l.takeWhile p = l := by
  intro l
  induction l with
  | nil => intro; rfl
  | cons c cs ih =>
    intro h
    rw [List.takeWhile_cons_of_pos (h c (by simp)),
      ih (fun d hd => h d (by simp [hd]))]

theorem takeWhile_break {p : Char → Bool} (l : List Char) (y : Char) (t : List Char)
    (hl : ∀ c ∈ l, p c = true) (hy : p y = false) :
    (l ++ y :: t).takeWhile p = l := by
  induction l with
  | nil =>
    rw [List.nil_append]
    exact List.takeWhile_cons_of_neg (by simp [hy])
  | cons c cs ih =>
    rw [List.cons_append, List.takeWhile_cons_of_pos (hl c (by simp)),
      ih (fun d hd => hl d (by simp [hd]))]

theorem reScan_noNl : ∀ (fuel : Nat) (cs : List Char),
    (∀ c ∈ cs, (c == '\n') = false) → reScan fuel cs false = [] := by
  intro fuel
  induction fuel with
  | zero => intro cs _; rfl
  | succ f ih =>
    intro cs h
    match cs with
    | [] => rfl
    | c :: rest =>
      have hstep : reScan (f + 1) (c :: rest) false = reScan f rest (c == '\n') := rfl
      rw [hstep, h c (by simp)]
      exact ih rest (fun d hd => h d (by simp [hd]))

theorem afterKw_line (a0 : Char) (a' b : List Char)
    (h0 : pySpace a0 = false) (ha : ∀ c ∈ a', pySpace c = false) :
    afterKw (' ' :: (a0 :: (a' ++ ',' :: ' ' :: b))) =
      some (a0 :: (a' ++ [',']), ' ' :: b) := by
  have hrw : a0 :: (a' ++ ',' :: ' ' :: b) = (a0 :: (a' ++ [','])) ++ ' ' :: b := by
    simp
  have hdw : (' ' :: (a0 :: (a' ++ ',' :: ' ' :: b))).dropWhile pySpace =
      a0 :: (a' ++ ',' :: ' ' :: b) := by
    rw [List.dropWhile_cons_of_pos (by decide), List.dropWhile_cons_of_neg (by simp [h0])]
  have htw : (a0 :: (a' ++ ',' :: ' ' :: b)).takeWhile (fun x => !pySpace x) =
      a0 :: (a' ++ [',']) := by
    rw [hrw]
    refine takeWhile_break _ _ _ (fun c hc => ?_) (by decide)
    rcases List.mem_cons.mp hc with rfl | hc2
    · simp [h0]
    · rcases List.mem_append.mp hc2 with hc3 | hc4
      · simp [ha c hc3]
      · simp only [List.mem_singleton] at hc4
        subst hc4
        decide
  have hdrop : (a0 :: (a' ++ ',' :: ' ' :: b)).drop (a0 :: (a' ++ [','])).length =
      ' ' :: b := by
    rw [hrw]
    exact List.drop_left _ _
  simp only [afterKw, if_pos (by decide : pySpace ' ' = true), hdw, htw, hdrop]

theorem matchImport_line (a0 : Char) (a' b : List Char)
    (h0 : pySpace a0 = false) (ha : ∀ c ∈ a', pySpace c = false) :
    matchImport ('i' :: 'm' :: 'p' :: 'o' :: 'r' :: 't' :: ' ' ::
        (a0 :: (a' ++ ',' :: ' ' :: b))) =
      some (a0 :: (a' ++ [',']), ' ' :: b) := by
  have hdw : ('i' :: 'm' :: 'p' :: 'o' :: 'r' :: 't' :: ' ' ::
      (a0 :: (a' ++ ',' :: ' ' :: b))).dropWhile pySpace =
      'i' :: 'm' :: 'p' :: 'o' :: 'r' :: 't' :: ' ' ::
        (a0 :: (a' ++ ',' :: ' ' :: b)) :=
    List.dropWhile_cons_of_neg (by decide)
  have hch : chompLit impKw ('i' :: 'm' :: 'p' :: 'o' :: 'r' :: 't' :: ' ' ::
      (a0 :: (a' ++ ',' :: ' ' :: b))) =
      some (' ' :: (a0 :: (a' ++ ',' :: ' ' :: b))) := rfl
  simp only [matchImport, hdw, hch]
  exact afterKw_line a0 a' b h0 ha

theorem reScan_import_line (fuel : Nat) (a0 : Char) (a' b : List Char)
    (h0 : pySpace a0 = false) (ha : ∀ c ∈ a', pySpace c = false)
    (hb : ∀ c ∈ b, (c == '\n') = false) :
    reScan (fuel + 1)
      ('i' :: 'm' :: 'p' :: 'o' :: 'r' :: 't' :: ' ' ::
        (a0 :: (a' ++ ',' :: ' ' :: b))) true
      = [a0 :: (a' ++ [','])] := by
  have hstep : reScan (fuel + 1)
      ('i' :: 'm' :: 'p' :: 'o' :: 'r' :: 't' :: ' ' ::
        (a0 :: (a' ++ ',' :: ' ' :: b))) true =
      match matchImport ('i' :: 'm' :: 'p' :: 'o' :: 'r' :: 't' :: ' ' ::
        (a0 :: (a' ++ ',' :: ' ' :: b))) with
      | some (cap, rest) => cap :: reScan fuel rest false
      | none => reScan fuel ('m' :: 'p' :: 'o' :: 'r' :: 't' :: ' ' ::
          (a0 :: (a' ++ ',' :: ' ' :: b))) ('i' == '\n') := rfl
  have hred : reScan (fuel + 1)
      ('i' :: 'm' :: 'p' :: 'o' :: 'r' :: 't' :: ' ' ::
        (a0 :: (a' ++ ',' :: ' ' :: b))) true =
      (a0 :: (a' ++ [','])) :: reScan fuel (' ' :: b) false := by
    rw [hstep, matchImport_line a0 a' b h0 ha]
  rw [hred, reScan_noNl fuel (' ' :: b) ?_]
  intro c hc
  rcases List.mem_cons.mp hc with rfl | hc2
  · decide
  · exact hb c hc2

theorem mk_beq_pil_false (l : List Char) (h : ',' ∈ l) :
    (String.mk l == "pil") = false := by
  rw [beq_eq_false_iff_ne]
  intro he
  have hd : l = "pil".data := congrArg String.data he
  rw [hd] at h
  exact absurd h (by decide)

theorem pkgMatch_comma_free (P : String) (hP : ',' ∈ P.data)
    (n : String) (hn : ',' ∉ n.data) : pkgMatch P n = false := by
  have h1 : (P == n) = false := by
    rw [beq_eq_false_iff_ne]
    intro he
    subst he
    exact hn hP
  have h2 : (normName P == normName n) = false := by
    rw [beq_eq_false_iff_ne]
    intro he
    have hmem : ',' ∈ (normName P).data := by
      refine List.mem_map.mpr ⟨',', hP, by decide⟩
    rw [he] at hmem
    rcases List.mem_map.mp hmem with ⟨c, hc, hcomma⟩
    have hcc : c = ',' := by
      by_cases hu : c == '_'
      · rw [if_pos hu] at hcomma
        exact absurd hcomma (by decide)
      · rwa [if_neg hu] at hcomma
    subst hcc
    exact hn hc
  simp [pkgMatch, h1, h2]

/-- Counterexample to claim C1 as stated: on the line `import a, b` the
pattern `(\S+)` cannot match the space, so the captured token is `a,` — the
first name followed by the comma — not the full comma-separated list
`a, b`. -/
theorem c1_claim_counterexample :
    fileImports "import a, b" = ["a,"] ∧ fileImports "import a, b" ≠ ["a, b"] := by
  refine ⟨by decide, by decide⟩

/-- Claim C1 as amended: for every source line of the form `import a, b`
(first name non-empty with no whitespace or dot, remainder of the line free
of newlines), the scanner captures the single token `a,` — the first name
with the trailing comma, everything up to the first whitespace — which after
lowercasing fails to match any installed name that is free of commas (as pip
package names are) and is silently dropped by the writer, producing no
manifest line. -/
theorem c1_multi_import_capture (a0 : Char) (a' b : List Char)
    (h0s : pySpace a0 = false) (h0d : (a0 == '.') = false)
    (has : ∀ c ∈ a', pySpace c = false) (had : ∀ c ∈ a', (c == '.') = false)
    (hb : ∀ c ∈ b, (c == '\n') = false)
    (installed : List (String × String))
    (hinst : ∀ e ∈ installed, ',' ∉ e.1.data) :
    fileImports (String.mk ('i' :: 'm' :: 'p' :: 'o' :: 'r' :: 't' :: ' ' ::
        (a0 :: (a' ++ ',' :: ' ' :: b)))) =
      [String.mk (Char.toLower a0 :: (a'.map Char.toLower ++ [',']))] ∧
    generate_requirements_txt installed
      [String.mk (Char.toLower a0 :: (a'.map Char.toLower ++ [',']))] = [] := by
  constructor
  · show (reScan _ _ true).map normImport = _
    rw [show (String.mk ('i' :: 'm' :: 'p' :: 'o' :: 'r' :: 't' :: ' ' ::
        (a0 :: (a' ++ ',' :: ' ' :: b)))).data.length =
      ('m' :: 'p' :: 'o' :: 'r' :: 't' :: ' ' ::
        (a0 :: (a' ++ ',' :: ' ' :: b))).length + 1 from rfl]
    rw [reScan_import_line _ a0 a' b h0s has hb]
    rw [List.map_singleton]
    have htop : (a0 :: (a' ++ [','])).takeWhile (fun c => !(c == '.')) =
        a0 :: (a' ++ [',']) := by
      refine takeWhile_all _ (fun c hc => ?_)
      rcases List.mem_cons.mp hc with rfl | hc2
      · simp [h0d]
      · rcases List.mem_append.mp hc2 with hc3 | hc4
        · simp [had c hc3]
        · simp only [List.mem_singleton] at hc4
          subst hc4
          decide
    have hlow : (a0 :: (a' ++ [','])).map Char.toLower =
        Char.toLower a0 :: (a'.map Char.toLower ++ [',']) := by
      simp
    have hcomma : ',' ∈ (Char.toLower a0 :: (a'.map Char.toLower ++ [','])) := by
      simp
    simp only [normImport, htop, hlow, List.lookup, PACKAGE_MAPPING,
      mk_beq_pil_false _ hcomma]
  · refine generate_eq_nil _ _ (fun p hp => ?_)
    simp only [List.mem_singleton] at hp
    subst hp
    refine writeLoopInner_none _ _ (fun e he => ?_)
    refine pkgMatch_comma_free _ (by simp) _ (hinst e he)

/-- Witness for C1 (amended) at the concrete line `import a, b` and a
comma-free installed mapping. -/
theorem c1_multi_import_capture_witness :
    fileImports "import a, b" = ["a,"] ∧
    generate_requirements_txt [("alpha", "1")] ["a,"] = [] := by
  have h := c1_multi_import_capture 'a' [] ['b'] (by decide) (by decide)
    (by decide) (by decide) (by decide) [("alpha", "1")] (by decide)
  exact h
